import Mathlib

/- Verification of the rishi daemon core: the WebSocket tool-RPC correlation
layer (daemon/internal/api/websocket_tool_rpc.go, the WebSocket session code),
the agentic chat orchestration loop (daemon/internal/api/handlers.go), and the
sandbox-side R text-editor command executors. Go maps keyed by strings are
modelled as association lists, goroutine interleavings as explicit schedules,
and the R vector operations (1-based indexing, descending `a:b` sequences,
NA propagation and removal) are reproduced exactly. -/

namespace Rishi

/-! ## Pending-request table (WebSocketManager.pendingRequests)

The Go code stores one response channel per generated request id in
`m.pendingRequests : map[string]interface{}`.  We model the map as an
association list from request id to an opaque sink identifier. -/

abbrev RequestId := String

abbrev SinkId := Nat

/-- Model of `m.pendingRequests`: request id to response-channel (sink). -/
abbrev PendingTable := List (RequestId × SinkId)

/-- Map lookup `m.pendingRequests[requestID]`. -/
def tableLookup (tbl : PendingTable) (id : RequestId) : Option SinkId :=
  (tbl.find? (fun p => p.1 == id)).map Prod.snd

/-- Map deletion `delete(m.pendingRequests, requestID)`. -/
def tableDelete (tbl : PendingTable) (id : RequestId) : PendingTable :=
  tbl.filter (fun p => p.1 != id)

/-- Errors returned by the dispatch path (errors.go / websocket_tool_rpc.go). -/
inductive RpcError
  | timeout
  | clientNotConnected
deriving DecidableEq

/-- Timeout arm of the `select` in `sendTextEditorCommand`
(websocket_tool_rpc.go lines 30-38): run `cleanup` (delete the pending entry)
and return `(nil, ErrTimeout)`.  The triple is
(response, error, table after cleanup). -/
def sendTextEditorCommandTimeout (tbl : PendingTable) (id : RequestId) :
    Option SinkId × Option RpcError × PendingTable :=
  (none, some RpcError.timeout, tableDelete tbl id)

/-- Lookup phase of `handleToolResponse` (websocket_tool_rpc.go lines 135-142):
read the pending entry under RLock; when the id is not registered, return
immediately, delivering nothing and leaving the table untouched.  The result is
(sink the response is delivered to, table afterwards); `handleToolResponse`
never deletes table entries. -/
def handleToolResponseLookup (tbl : PendingTable) (id : RequestId) :
    Option SinkId × PendingTable :=
  match tableLookup tbl id with
  | none => (none, tbl)
  | some sink => (some sink, tbl)

/-! ## Race between handleToolResponse and the dispatch timeout cleanup

`handleToolResponse` reads the channel out of the map under `RLock`, releases
the lock, and then sends on the channel (`typedChan <- &output`).  The
dispatcher cleanup (`cleanup` in `sendTextEditorCommand`) deletes the map
entry under `Lock` and then calls `close(responseChan)`.  We model the two
goroutines with explicit interleaving steps over a shared state; in Go, a send
on a closed channel and a close of a closed channel both panic. -/

/-- State of the capacity-1 response channel (`make(chan *T, 1)`). -/
inductive ChanState
  | emptyBuf
  | fullBuf
  | closed
deriving DecidableEq

/-- Shared state of the resolve/cleanup race: the pending table, the response
channel, the channel reference the resolver read under RLock (none until the
lookup ran), and whether a Go runtime panic has occurred. -/
structure RaceState where
  pending : PendingTable
  chan : ChanState
  looked : Option (Option SinkId)
  panicked : Bool
deriving DecidableEq

/-- One interleaving step: the dispatcher cleanup performs `delete` then
`close`; the resolver performs the map read then the channel send. -/
inductive RaceStep
  | cleanupDelete
  | cleanupClose
  | resolveLookup
  | resolveSend
deriving DecidableEq

/-- Semantics of one step of the resolve/cleanup race, faithful to Go:
`close` of a closed channel panics, a send on a closed channel panics, a send
on a full capacity-1 buffer blocks (modelled as a no-op for the blocked
instant), and a resolver whose lookup found no entry returns without
sending. -/
def raceStep (id : RequestId) (s : RaceState) (st : RaceStep) : RaceState :=
  match st with
  | RaceStep.cleanupDelete => { s with pending := tableDelete s.pending id }
  | RaceStep.cleanupClose =>
      match s.chan with
      | ChanState.closed => { s with panicked := true }
      | _ => { s with chan := ChanState.closed }
  | RaceStep.resolveLookup => { s with looked := some (tableLookup s.pending id) }
  | RaceStep.resolveSend =>
      match s.looked with
      | some (some _) =>
          match s.chan with
          | ChanState.closed => { s with panicked := true }
          | ChanState.emptyBuf => { s with chan := ChanState.fullBuf }
          | ChanState.fullBuf => s
      | _ => s

/-- Run a schedule of interleaved steps. -/
def runRace (id : RequestId) (init : RaceState) (steps : List RaceStep) : RaceState :=
  steps.foldl (raceStep id) init

/-- Initial race state: one dispatched request registered in the table, its
capacity-1 channel empty, the resolver not yet started, no panic. -/
def raceInit : RaceState :=
  { pending := [("req-1", 1)], chan := ChanState.emptyBuf, looked := none, panicked := false }

/-! ## Connection registry (WebSocketManager.connections) and readPump

`m.connections : map[string]*WebSocketConnection` maps a client name to its
active session.  `addConnection` is a plain map assignment, `removeConnection`
a plain map delete.  The `readPump` deferred teardown closes the socket and
calls `removeConnection(c.client)` whenever `c.client != ""`, without checking
which session the registry currently binds. -/

abbrev SessionId := Nat

abbrev Registry := List (String × SessionId)

/-- Registry lookup `m.connections[clientID]`. -/
def regLookup (reg : Registry) (name : String) : Option SessionId :=
  (reg.find? (fun p => p.1 == name)).map Prod.snd

/-- Model of `addConnection`: map assignment replaces any previous binding. -/
def addConnection (reg : Registry) (name : String) (sid : SessionId) : Registry :=
  (name, sid) :: reg.filter (fun p => p.1 != name)

/-- Model of `removeConnection`: map delete by client name only. -/
def removeConnection (reg : Registry) (name : String) : Registry :=
  reg.filter (fun p => p.1 != name)

/-- Deferred teardown of `readPump` (part_012 lines 429-435): if this session
ever handshook (`c.client` non-empty), deregister that client name,
unconditionally. -/
def readPumpTeardown (reg : Registry) (client : String) : Registry :=
  if client ≠ "" then removeConnection reg client else reg

/-! ## readPump frame processing (part_012 lines 444-473)

A frame is dispatched on its `type` tag: `handshake` sets `c.client` and
registers the connection; `tool_response` invokes `handleToolResponse` when
both an id and a result are present; any other type is ignored.  Nothing in
the loop terminates the connection based on frame content - only a read error
breaks the loop. -/

/-- Wire frame as seen by the readPump switch. -/
inductive Frame
  | handshake
  | toolResponse (id : String) (hasResult : Bool)
  | other (t : String)
deriving DecidableEq

/-- State of one WebSocket session inside readPump, together with the shared
manager state it touches.  `delivered` records each (request id, sink)
delivery performed via `handleToolResponse`; `terminated` records whether the
session decided to stop because of a frame. -/
structure SessState where
  sid : SessionId
  client : String
  registry : Registry
  pending : PendingTable
  delivered : List (RequestId × SinkId)
  terminated : Bool
deriving DecidableEq

/-- One iteration of the readPump message switch. -/
def readPumpStep (s : SessState) (f : Frame) : SessState :=
  match f with
  | Frame.handshake =>
      { s with client := "r_tool_rpc",
               registry := addConnection s.registry "r_tool_rpc" s.sid }
  | Frame.toolResponse id hasResult =>
      if id != "" && hasResult then
        match tableLookup s.pending id with
        | some sink => { s with delivered := s.delivered ++ [(id, sink)] }
        | none => s
      else s
  | Frame.other _ => s

/-- Process a sequence of inbound frames. -/
def readPumpRun (s : SessState) (fs : List Frame) : SessState :=
  fs.foldl readPumpStep s

/-- Fresh session that has not handshaken, against a manager with one pending
request registered. -/
def freshSession : SessState :=
  { sid := 1, client := "", registry := [], pending := [("req-1", 7)],
    delivered := [], terminated := false }

/-! ## Chat history construction (handlers.go lines 541-559)

`handleChat` builds `msgs` by prepending the system prompt as a user message,
folding over `in.History` with a switch on the role (user, assistant, default:
ignore), and finally appending `in.Message` as a user message when it is
non-empty. -/

/-- One entry of the inbound request `history`. -/
structure InboundMessage where
  role : String
  content : String
deriving DecidableEq

/-- Provider message, keeping only the role and the single text block the
handler constructs (`anthropic.NewUserMessage(anthropic.NewTextBlock(...))`). -/
inductive MessageParam
  | user (s : String)
  | assistant (s : String)
deriving DecidableEq

/-- Body of the history loop: the switch on `m.Role`. -/
def historyStep (msgs : List MessageParam) (m : InboundMessage) : List MessageParam :=
  if m.role = "user" then msgs ++ [MessageParam.user m.content]
  else if m.role = "assistant" then msgs ++ [MessageParam.assistant m.content]
  else msgs

/-- The full `msgs` construction of `handleChat` before the provider loop. -/
def buildChatMessages (sysPrompt : String) (history : List InboundMessage)
    (message : String) : List MessageParam :=
  let msgs := history.foldl historyStep [MessageParam.user sysPrompt]
  if message ≠ "" then msgs ++ [MessageParam.user message] else msgs

/-- Conversion described by the claim: user and assistant entries become
provider messages, every other role is silently omitted. -/
def convertRole (m : InboundMessage) : Option MessageParam :=
  if m.role = "user" then some (MessageParam.user m.content)
  else if m.role = "assistant" then some (MessageParam.assistant m.content)
  else none

/-! ## Replayed history during Dispatching (handlers.go lines 659-853)

For every block of the accumulated message: a text block appends one assistant
message; a tool-use block appends one assistant tool-use message, appends the
tool result to the `toolResults` slice, and then appends a user message built
from the whole accumulated `toolResults` slice - the latter append sits inside
the block loop in the source. -/

/-- Content block of the accumulated provider message, keeping what the loop
bifurcates on. -/
inductive CBlock
  | text (s : String)
  | toolUse (id : String)
deriving DecidableEq

/-- History entry appended by the dispatching loop.  A user message carries
the list of tool-use ids whose results it contains. -/
inductive HistEntry
  | assistantText (s : String)
  | assistantToolUse (id : String)
  | userToolResults (ids : List String)
deriving DecidableEq

/-- Per-block step of the dispatching loop over `message.Content`: state is
(msgs so far, toolResults so far). -/
def dispatchBlockStep (st : List HistEntry × List String) (b : CBlock) :
    List HistEntry × List String :=
  match b with
  | CBlock.text s => (st.1 ++ [HistEntry.assistantText s], st.2)
  | CBlock.toolUse id =>
      let tr := st.2 ++ [id]
      (st.1 ++ [HistEntry.assistantToolUse id, HistEntry.userToolResults tr], tr)

/-- Process all blocks of one accumulated message, starting from empty
appended history and an empty `toolResults` slice. -/
def processContent (blocks : List CBlock) : List HistEntry × List String :=
  blocks.foldl dispatchBlockStep ([], [])

/-- Number of times the tool result for `id` appears across the user messages
of an appended history. -/
def toolResultAppends (id : String) (msgs : List HistEntry) : Nat :=
  (msgs.map (fun e =>
    match e with
    | HistEntry.userToolResults ids => ids.count id
    | _ => 0)).sum

/-- Number of assistant tool-use entries for `id` in an appended history. -/
def toolUseAppends (id : String) (msgs : List HistEntry) : Nat :=
  (msgs.map (fun e =>
    match e with
    | HistEntry.assistantToolUse i => if i = id then 1 else 0
    | _ => 0)).sum

/-! ## NDJSON event stream of one chat request (handlers.go lines 600-868)

The outer `for` loop runs one provider turn per iteration.  Within a turn:
text deltas are emitted as they stream; an accumulation error emits one
`{error}` object and breaks the inner loop only; a stream-level error emits
one `{error}` object and returns from the handler; otherwise the accumulated
blocks are processed (each tool use emitting a requesting and a completed
`tool_call` object), and if no tool result was produced the handler emits
`{is_final: true}` and stops. -/

/-- One NDJSON object written to the response stream. -/
inductive ChatEv
  | text (s : String)
  | toolCall (id : String) (completed : Bool)
  | errEv (m : String)
  | finalEv
deriving DecidableEq

/-- Script of one provider turn: the text deltas processed, whether (and with
which friendly message) `message.Accumulate` failed and broke the inner loop,
the content blocks accumulated when the inner loop ended, and the value of
`stream.Err()`.  The provider itself is an external collaborator, so its
output is scripted. -/
structure ProviderTurn where
  deltas : List String
  accumFail : Option String
  blocks : List CBlock
  streamErr : Option String
deriving DecidableEq

/-- Events of the inner streaming loop: one `{text}` per delta, then one
`{error}` if accumulation failed (after which the inner loop breaks). -/
def innerEvents (t : ProviderTurn) : List ChatEv :=
  t.deltas.map ChatEv.text ++
    (match t.accumFail with
     | some m => [ChatEv.errEv m]
     | none => [])

/-- Events emitted while dispatching one block: a tool use emits a
`requesting` and then a `completed` tool_call object, a text block emits
nothing. -/
def blockEvents : CBlock → List ChatEv
  | CBlock.text _ => []
  | CBlock.toolUse id => [ChatEv.toolCall id false, ChatEv.toolCall id true]

/-- Number of tool results collected in one turn (one per tool-use block). -/
def turnToolUses (t : ProviderTurn) : Nat :=
  t.blocks.countP (fun b =>
    match b with
    | CBlock.toolUse _ => true
    | _ => false)

/-- Full NDJSON trace of one chat request over a script of provider turns.
A stream-level error returns from the handler; a turn with no tool results
emits `{is_final: true}` and breaks; otherwise the loop continues with the
next scripted turn (an exhausted script contributes no further events). -/
def chatTrace : List ProviderTurn → List ChatEv
  | [] => []
  | t :: rest =>
      match t.streamErr with
      | some e => innerEvents t ++ [ChatEv.errEv e]
      | none =>
          let evs := innerEvents t ++ (t.blocks.map blockEvents).flatten
          if turnToolUses t = 0 then evs ++ [ChatEv.finalEv]
          else evs ++ chatTrace rest

/-! ## Sandbox text-editor executors (R, part_000)

The R command implementations work on the file contents after the path and
existence checks succeeded; the models below take those contents directly.
R specifics reproduced exactly: `gregexpr(..., fixed = TRUE)` counts
non-overlapping leftmost matches; `gsub(..., fixed = TRUE)` replaces them
left to right; `a:b` is a descending sequence when `a > b`; indexing a
character vector past its end yields NA, and the insert code strips NA
entries afterwards.  The models cover positive (1-based) indices only -- the
theorems about view restrict start and end to be at least 1. -/

/-- Result object of an R text-editor command (`content` / `error` fields of
the tool result; an unset field is the empty string, as in the Go output
structs it round-trips through). -/
structure RToolResult where
  content : String
  error : String
deriving DecidableEq

/-- Non-overlapping leftmost match count of `gregexpr(old, content, fixed =
TRUE)`.  Defined for a non-empty pattern (the zero result on an empty pattern
is a placeholder outside the modelled domain). -/
def countOccs : List Char → List Char → Nat
  | _, [] => 0
  | [], _ :: _ => 0
  | p :: ps, c :: rest =>
      if (p :: ps).isPrefixOf (c :: rest) then
        countOccs (p :: ps) (rest.drop ps.length) + 1
      else
        countOccs (p :: ps) rest
termination_by _pat content => content.length
decreasing_by
  · simp only [List.length_cons, List.length_drop]
    omega
  · simp only [List.length_cons]
    omega

/-- Fixed (non-regex) replacement of every non-overlapping leftmost match,
as performed by `gsub(old, new, content, fixed = TRUE)`. -/
def gsubFixed : List Char → List Char → List Char → List Char
  | _, _, [] => []
  | [], _, c :: rest => c :: rest
  | p :: ps, repl, c :: rest =>
      if (p :: ps).isPrefixOf (c :: rest) then
        repl ++ gsubFixed (p :: ps) repl (rest.drop ps.length)
      else
        c :: gsubFixed (p :: ps) repl rest
termination_by _pat _repl content => content.length
decreasing_by
  · simp only [List.length_cons, List.length_drop]
    omega
  · simp only [List.length_cons]
    omega

/-- Core of `text_editor_str_replace` (part_000 lines 265-288) on the contents
of an existing regular file: returns the tool result and the file contents
after the command. -/
def text_editor_str_replace (oldStr newStr content : List Char) :
    RToolResult × List Char :=
  let ms := countOccs oldStr content
  if ms = 0 then
    ({ content := "", error := "No match found for replacement" }, content)
  else if ms > 1 then
    ({ content := "",
       error := "Found " ++ toString ms ++
         " matches for replacement text. Please provide more specific text to make a unique match." },
     content)
  else
    ({ content := "Successfully replaced text at exactly one location.", error := "" },
     gsubFixed oldStr newStr content)

/-- R sequence `a:b` restricted to natural bounds: ascending when `a ≤ b`,
descending otherwise. -/
def rseqNat (a b : Nat) : List Nat :=
  if a ≤ b then List.range' a (b + 1 - a) else (List.range' b (a + 1 - b)).reverse

/-- R 1-based vector indexing `lines[i]` for `i ≥ 1`: past-the-end indices
yield NA (`none`). -/
def rIndex (lines : List String) (i : Nat) : Option String :=
  lines.get? (i - 1)

/-- Core of `text_editor_insert` (part_000 lines 391-421) on the lines of an
existing regular file: validates `insert_line`, prepends at 0, and otherwise
builds `c(lines[1:L], new_lines, lines[(L+1):length(lines)])` followed by the
NA-removal pass, exactly as the R code does (including the descending
`(n+1):n` selection that arises when `L = n`). -/
def text_editor_insert (lines : List String) (insertLine : Int)
    (newLines : List String) : RToolResult × List String :=
  let n := lines.length
  if insertLine < 0 then
    ({ content := "", error := "insert_line must be >= 0" }, lines)
  else if insertLine > (n : Int) then
    ({ content := "",
       error := "insert_line " ++ toString insertLine ++ " is beyond file length " ++ toString n },
     lines)
  else if insertLine = 0 then
    ({ content := "Successfully inserted text after line 0", error := "" },
     newLines ++ lines)
  else
    let L := insertLine.toNat
    let selected :=
      (rseqNat 1 L).map (rIndex lines) ++ newLines.map some ++
        (rseqNat (L + 1) n).map (rIndex lines)
    ({ content := "Successfully inserted text after line " ++ toString insertLine,
       error := "" },
     selected.filterMap id)

/-- Line-emission loop of `text_editor_view` (part_000 lines 486-510) for an
existing regular file with an explicit `[start, end]` range: `end_line` is
clamped to the file length, then `for (i in start:end_line)` emits `i: line`
for every index that passes the `i <= length(lines)` guard.  The model returns
the (line number, line) pairs in emission order and covers positive
indices. -/
def text_editor_view_lines (lines : List String) (s e : Nat) : List (Nat × String) :=
  let endLine := min e lines.length
  (rseqNat s endLine).filterMap (fun i =>
    if i ≤ lines.length then (rIndex lines i).map (fun l => (i, l)) else none)

/-! ## Helper lemmas -/

theorem tableLookup_delete_self (tbl : PendingTable) (id : RequestId) :
    tableLookup (tableDelete tbl id) id = none := by
  induction tbl with
  | nil => rfl
  | cons p t ih =>
      by_cases h : p.1 = id
      · rw [show tableDelete (p :: t) id = tableDelete t id from by
          simp [tableDelete, List.filter_cons, h]]
        exact ih
      · simpa [tableDelete, tableLookup, List.filter_cons, List.find?_cons, h] using ih

theorem tableLookup_delete_ne (tbl : PendingTable) (id k : RequestId) (h : k ≠ id) :
    tableLookup (tableDelete tbl id) k = tableLookup tbl k := by
  have hik : ¬id = k := fun hkk => h hkk.symm
  induction tbl with
  | nil => rfl
  | cons p t ih =>
      by_cases hp : p.1 = id
      · simp [tableDelete, tableLookup, List.filter_cons, List.find?_cons, hp, hik] at ih ⊢
        exact ih
      · by_cases hk : p.1 = k
        · simp [tableDelete, tableLookup, List.filter_cons, List.find?_cons, hp, hk, h]
        · simp [tableDelete, tableLookup, List.filter_cons, List.find?_cons, hp, hk] at ih ⊢
          exact ih

theorem tableDelete_idem (tbl : PendingTable) (id : RequestId) :
    tableDelete (tableDelete tbl id) id = tableDelete tbl id := by
  simp [tableDelete, List.filter_filter]

theorem removeConnection_addConnection (reg : Registry) (name : String) (sid : SessionId) :
    removeConnection (addConnection reg name sid) name = removeConnection reg name := by
  simp [removeConnection, addConnection, List.filter_filter]

theorem regLookup_removeConnection_self (reg : Registry) (name : String) :
    regLookup (removeConnection reg name) name = none :=
  tableLookup_delete_self reg name

theorem gsubFixed_eq_of_countOccs_zero (repl : List Char) :
    ∀ (pat content : List Char), countOccs pat content = 0 →
      gsubFixed pat repl content = content := by
  intro pat content
  induction pat, content using countOccs.induct with
  | case1 x => intro _; cases x <;> simp [gsubFixed]
  | case2 c rest => intro _; simp [gsubFixed]
  | case3 p ps c rest hpre ih =>
      intro h
      rw [countOccs] at h
      simp [hpre] at h
  | case4 p ps c rest hpre ih =>
      intro h
      rw [countOccs] at h
      simp only [if_neg hpre] at h
      rw [gsubFixed]
      simp only [if_neg hpre]
      rw [ih h]

theorem countOccs_one_decomp (repl : List Char) :
    ∀ (pat content : List Char), countOccs pat content = 1 →
      ∃ pre post, content = pre ++ pat ++ post ∧
        gsubFixed pat repl content = pre ++ repl ++ post := by
  intro pat content
  induction pat, content using countOccs.induct with
  | case1 x =>
      intro h
      rw [countOccs] at h
      exact absurd h (by omega)
  | case2 c rest =>
      intro h
      rw [countOccs] at h
      exact absurd h (by omega)
  | case3 p ps c rest hpre ih =>
      intro h
      rw [countOccs] at h
      simp only [if_pos hpre] at h
      have h0 : countOccs (p :: ps) (List.drop ps.length rest) = 0 := by omega
      have hdec : (p :: ps) ++ List.drop ps.length rest = c :: rest := by
        have := List.prefix_iff_eq_append.mp (List.isPrefixOf_iff_prefix.mp hpre)
        simpa using this
      refine ⟨[], List.drop ps.length rest, by simpa using hdec.symm, ?_⟩
      rw [gsubFixed]
      simp only [if_pos hpre]
      rw [gsubFixed_eq_of_countOccs_zero repl _ _ h0]
      simp
  | case4 p ps c rest hpre ih =>
      intro h
      rw [countOccs] at h
      simp only [if_neg hpre] at h
      rcases ih h with ⟨pre, post, hc, hg⟩
      refine ⟨c :: pre, post, by simp [hc], ?_⟩
      rw [gsubFixed]
      simp only [if_neg hpre]
      rw [hg]
      simp

theorem mapfst_filterMap_view (lines : List String) (idx : List Nat)
    (h1 : ∀ i ∈ idx, 1 ≤ i) :
    ((idx.filterMap (fun i =>
        if i ≤ lines.length then (rIndex lines i).map (fun l => (i, l)) else none)).map
      Prod.fst) = idx.filter (fun i => i ≤ lines.length) := by
  induction idx with
  | nil => rfl
  | cons i t ih =>
      have hi1 : 1 ≤ i := h1 i (List.mem_cons_self i t)
      have iht := ih (fun j hj => h1 j (List.mem_cons_of_mem i hj))
      simp only [rIndex, List.get?_eq_getElem?] at iht
      by_cases hi : i ≤ lines.length
      · have hlt : i - 1 < lines.length := by omega
        have hl : lines[i - 1]? = some lines[i - 1] := List.getElem?_eq_getElem hlt
        simp [List.filterMap_cons, List.filter_cons, hi, rIndex, hl, iht]
      · simp [List.filterMap_cons, List.filter_cons, hi, rIndex, iht]

theorem mem_filterMap_view (lines : List String) (idx : List Nat)
    (h1 : ∀ i ∈ idx, 1 ≤ i) :
    ∀ p ∈ idx.filterMap (fun i =>
        if i ≤ lines.length then (rIndex lines i).map (fun l => (i, l)) else none),
      1 ≤ p.1 ∧ p.1 ≤ lines.length ∧ lines.get? (p.1 - 1) = some p.2 := by
  intro p hp
  rcases List.mem_filterMap.mp hp with ⟨i, hi, hf⟩
  by_cases hle : i ≤ lines.length
  · rw [if_pos hle] at hf
    rcases Option.map_eq_some'.mp hf with ⟨l, hl, hpl⟩
    subst hpl
    exact ⟨h1 i hi, hle, hl⟩
  · rw [if_neg hle] at hf
    exact absurd hf (Option.noConfusion)

theorem filter_range'_le (n : Nat) :
    ∀ (k a : Nat), (List.range' a k).filter (fun i => decide (i ≤ n)) =
      List.range' a (min k (n + 1 - a)) := by
  intro k
  induction k with
  | zero => intro a; simp
  | succ k ih =>
      intro a
      rw [List.range'_succ]
      by_cases ha : a ≤ n
      · have hmin : min (k + 1) (n + 1 - a) = min k (n + 1 - (a + 1)) + 1 := by omega
        have hc : decide (a ≤ n) = true := by simp [ha]
        rw [List.filter_cons, if_pos hc, ih (a + 1), hmin, List.range'_succ]
      · have hmin : min (k + 1) (n + 1 - a) = 0 := by omega
        have hz : n + 1 - (a + 1) = 0 := by omega
        have hc : ¬decide (a ≤ n) = true := by simp [ha]
        rw [List.filter_cons, if_neg hc, ih (a + 1), hz, hmin]
        simp

theorem mem_rseqNat_lower (a b i : Nat) (h : i ∈ rseqNat a b) : min a b ≤ i := by
  unfold rseqNat at h
  split at h
  · have := List.mem_range'_1.mp h
    omega
  · have := List.mem_range'_1.mp (List.mem_reverse.mp h)
    omega

/-! ## Claim theorems -/

/-- C1: a dispatched sandbox tool command whose response channel receives no
value within the 30-second timeout returns the request-timeout error; its
pending-request entry is removed from the table (removing it again changes
nothing, so the removal happens exactly once); a tool_response frame arriving
afterwards with that request id finds no registered sink and
`handleToolResponse` returns without delivering anything and without touching
the table; and the entry of every other pending request is unchanged by the
cleanup. -/
theorem dispatch_timeout_late_response_dropped (tbl : PendingTable) (id : RequestId) :
    (sendTextEditorCommandTimeout tbl id).2.1 = some RpcError.timeout ∧
    tableLookup (sendTextEditorCommandTimeout tbl id).2.2 id = none ∧
    handleToolResponseLookup (tableDelete tbl id) id = (none, tableDelete tbl id) ∧
    tableDelete (tableDelete tbl id) id = tableDelete tbl id ∧
    (∀ k, k ≠ id → tableLookup (tableDelete tbl id) k = tableLookup tbl k) := by
  refine ⟨rfl, ?_, ?_, tableDelete_idem tbl id, fun k hk => tableLookup_delete_ne tbl id k hk⟩
  · exact tableLookup_delete_self tbl id
  · simp [handleToolResponseLookup, tableLookup_delete_self]

/-- Witness for C1 on the concrete table [("a", 1), ("b", 2)] with the request
"a" timing out: the late response for "a" is dropped with the table unchanged,
and the entry of the other pending request "b" is untouched. -/
theorem dispatch_timeout_late_response_dropped_witness :
    handleToolResponseLookup (tableDelete [("a", 1), ("b", 2)] "a") "a" =
      (none, tableDelete [("a", 1), ("b", 2)] "a") ∧
    tableLookup (tableDelete [("a", 1), ("b", 2)] "a") "b" =
      tableLookup [("a", 1), ("b", 2)] "b" :=
  ⟨(dispatch_timeout_late_response_dropped [("a", 1), ("b", 2)] "a").2.2.1,
   (dispatch_timeout_late_response_dropped [("a", 1), ("b", 2)] "a").2.2.2.2 "b" (by decide)⟩

/-- C2 fails on the code: in the interleaving where `handleToolResponse` reads
the response channel out of the pending map under RLock, then the timed-out
dispatcher runs its cleanup (delete the entry, close the channel), and then
the resolver performs its send, the send hits a closed channel and the Go
runtime panics.  The claim demands that this race never panics. -/
theorem resolve_race_with_timeout_cleanup_panics :
    (runRace "req-1" raceInit
      [RaceStep.resolveLookup, RaceStep.cleanupDelete, RaceStep.cleanupClose,
       RaceStep.resolveSend]).panicked = true := by decide

/-- C3 fails on the code: processing an accumulated assistant message with the
two tool-use blocks t1 and t2 appends the tool result of t1 to two distinct
user messages (the `msgs = append(msgs, anthropic.NewUserMessage(toolResults...))`
sits inside the per-block loop, and `toolResults` accumulates), while each
tool use itself is appended exactly once.  The claim demands exactly one
ToolResult append per ToolUse id. -/
theorem tool_results_duplicated_across_user_messages :
    toolResultAppends "t1" (processContent [CBlock.toolUse "t1", CBlock.toolUse "t2"]).1 = 2 ∧
    toolResultAppends "t2" (processContent [CBlock.toolUse "t1", CBlock.toolUse "t2"]).1 = 1 ∧
    toolUseAppends "t1" (processContent [CBlock.toolUse "t1", CBlock.toolUse "t2"]).1 = 1 ∧
    toolUseAppends "t2" (processContent [CBlock.toolUse "t1", CBlock.toolUse "t2"]).1 = 1 := by
  decide

/-- C5 counterexample: session 1 handshakes under "r_tool_rpc", session 2
handshakes under the same name (superseding the binding), and then the
teardown of session 1 runs.  The claim says the binding of the second session
stays intact (the registry still maps the name to session 2); the code
deletes by name unconditionally, so the binding is gone. -/
theorem teardown_removes_superseding_binding :
    regLookup (readPumpTeardown
        (addConnection (addConnection [] "r_tool_rpc" 1) "r_tool_rpc" 2) "r_tool_rpc")
      "r_tool_rpc" = none := by decide

/-- C5 amended: the readPump teardown of a session that has handshaken under
`name` deregisters `name` unconditionally, removing whatever binding is
current - in particular it removes the binding of a second session that
handshook under the same name after this one, leaving no registration for
the name at all. -/
theorem teardown_deregisters_unconditionally (reg : Registry) (name : String)
    (a b : SessionId) (h : name ≠ "") :
    readPumpTeardown (addConnection (addConnection reg name a) name b) name =
      removeConnection reg name ∧
    regLookup (readPumpTeardown (addConnection (addConnection reg name a) name b) name)
      name = none := by
  have h1 : readPumpTeardown (addConnection (addConnection reg name a) name b) name =
      removeConnection reg name := by
    rw [readPumpTeardown, if_pos h, removeConnection_addConnection,
      removeConnection_addConnection]
  exact ⟨h1, by rw [h1]; exact regLookup_removeConnection_self reg name⟩

/-- Witness for C5 amended at a concrete registry holding an unrelated
binding: after the two handshakes and the first session teardown, the name is
unregistered. -/
theorem teardown_deregisters_unconditionally_witness :
    regLookup (readPumpTeardown
        (addConnection (addConnection [("other", 9)] "r_tool_rpc" 1) "r_tool_rpc" 2)
        "r_tool_rpc") "r_tool_rpc" = none :=
  (teardown_deregisters_unconditionally [("other", 9)] "r_tool_rpc" 1 2 (by decide)).2

/-- C6 counterexample: a session that has never handshaken receives a
tool_response as its very first frame.  The claim says the frame is a
protocol error and the connection is terminated; the code instead processes
it (the pending request "req-1" receives a delivery) and the session keeps
running, still unhandshaken. -/
theorem pre_handshake_tool_response_processed :
    (readPumpRun freshSession [Frame.toolResponse "req-1" true]).delivered = [("req-1", 7)] ∧
    (readPumpRun freshSession [Frame.toolResponse "req-1" true]).terminated = false ∧
    (readPumpRun freshSession [Frame.toolResponse "req-1" true]).client = "" := by decide

/-- C6 amended: the readPump frame switch never terminates the session based
on frame content, and enforces no handshake-first ordering - the deliveries a
frame causes are independent of whether the session has handshaken (its
`client` field plays no role in tool_response processing). -/
theorem readPump_ignores_handshake_state (s : SessState) (f : Frame) (c : String) :
    (readPumpStep s f).terminated = s.terminated ∧
    (readPumpStep { s with client := c } f).delivered = (readPumpStep s f).delivered := by
  cases f with
  | handshake => exact ⟨rfl, rfl⟩
  | toolResponse id hasResult =>
      constructor
      · simp only [readPumpStep]
        split
        · split <;> rfl
        · rfl
      · simp only [readPumpStep]
        split
        · split <;> rfl
        · rfl
  | other t => exact ⟨rfl, rfl⟩

/-- C10: the provider message sequence built by handleChat equals the
system-prompt message, followed by the history entries with role user or
assistant converted in their original order (every other role silently
omitted), followed by the new user message exactly when the supplied message
text is non-empty. -/
theorem build_messages_filters_roles (sys : String) (history : List InboundMessage)
    (message : String) :
    buildChatMessages sys history message =
      [MessageParam.user sys] ++ history.filterMap convertRole ++
        (if message ≠ "" then [MessageParam.user message] else []) := by
  have key : ∀ (h : List InboundMessage) (acc : List MessageParam),
      h.foldl historyStep acc = acc ++ h.filterMap convertRole := by
    intro h
    induction h with
    | nil => intro acc; simp
    | cons m t ih =>
        intro acc
        by_cases hu : m.role = "user"
        · simp [historyStep, convertRole, hu, ih]
        · by_cases ha : m.role = "assistant"
          · simp [historyStep, convertRole, hu, ha, ih]
          · simp [historyStep, convertRole, hu, ha, ih]
  by_cases hm : message ≠ "" <;>
    simp [buildChatMessages, key, hm]

/-- C4 counterexample: a provider turn in which `message.Accumulate` fails
(emitting one error object and breaking the inner loop) while `stream.Err()`
is nil and the partial message holds no tool-use blocks produces the trace
[error, is_final] - an is_final event is emitted after the first error event,
which the claim forbids. -/
theorem error_event_followed_by_final_event :
    chatTrace [{ deltas := [], accumFail := some "Error processing response: accumulation failed",
                 blocks := [], streamErr := none }] =
      [ChatEv.errEv "Error processing response: accumulation failed", ChatEv.finalEv] := by
  decide

/-- C4 amended: on the NDJSON stream of one chat request, no event of any
kind follows an is_final event - every trace is a final-free sequence
optionally closed by a single is_final.  (An error event produced by a
message-accumulation failure, however, does not end the stream: the
counterexample trace continues with is_final.) -/
theorem final_event_only_at_stream_end (script : List ProviderTurn) :
    ∃ body tail, chatTrace script = body ++ tail ∧
      ChatEv.finalEv ∉ body ∧ (tail = [] ∨ tail = [ChatEv.finalEv]) := by
  induction script with
  | nil => exact ⟨[], [], rfl, by simp, Or.inl rfl⟩
  | cons t rest ih =>
      have hinner : ChatEv.finalEv ∉ innerEvents t := by
        intro hmem
        rcases List.mem_append.mp hmem with hmem | hmem
        · rcases List.mem_map.mp hmem with ⟨d, _, hd⟩
          exact ChatEv.noConfusion hd
        · cases hf : t.accumFail with
          | none => rw [hf] at hmem; exact (List.not_mem_nil _ hmem)
          | some m =>
              rw [hf] at hmem
              rcases List.mem_singleton.mp hmem with h
              exact ChatEv.noConfusion h
      have hblocks : ChatEv.finalEv ∉ (t.blocks.map blockEvents).flatten := by
        intro hmem
        rcases List.mem_flatten.mp hmem with ⟨l, hl, hmem⟩
        rcases List.mem_map.mp hl with ⟨b, _, hb⟩
        subst hb
        cases b with
        | text s => exact (List.not_mem_nil _ hmem)
        | toolUse id =>
            rcases List.mem_cons.mp hmem with h | h
            · exact ChatEv.noConfusion h
            · rcases List.mem_singleton.mp h with h
              exact ChatEv.noConfusion h
      cases hse : t.streamErr with
      | some e =>
          refine ⟨innerEvents t ++ [ChatEv.errEv e], [], by simp [chatTrace, hse], ?_, Or.inl rfl⟩
          intro hmem
          rcases List.mem_append.mp hmem with hmem | hmem
          · exact hinner hmem
          · rcases List.mem_singleton.mp hmem with h
            exact ChatEv.noConfusion h
      | none =>
          by_cases htu : turnToolUses t = 0
          · refine ⟨innerEvents t ++ (t.blocks.map blockEvents).flatten, [ChatEv.finalEv],
              by simp [chatTrace, hse, htu], ?_, Or.inr rfl⟩
            intro hmem
            rcases List.mem_append.mp hmem with hmem | hmem
            · exact hinner hmem
            · exact hblocks hmem
          · rcases ih with ⟨body, tail, heq, hbody, htail⟩
            refine ⟨innerEvents t ++ (t.blocks.map blockEvents).flatten ++ body, tail,
              ?_, ?_, htail⟩
            · simp [chatTrace, hse, htu, heq]
            · intro hmem
              rcases List.mem_append.mp hmem with hmem | hmem
              · rcases List.mem_append.mp hmem with hmem | hmem
                · exact hinner hmem
                · exact hblocks hmem
              · exact hbody hmem

/-- C7: for a str_replace command on the contents of an existing regular
file - match counts taken, as in the source, as the non-overlapping leftmost
matches found by gregexpr(fixed = TRUE): zero matches produce an error with
the file unchanged; more than one match produces an error naming the match
count with the file unchanged; exactly one match reports success and the new
file contents equal the old contents with that single occurrence replaced by
new_str. -/
theorem str_replace_match_count_spec (oldStr newStr content : List Char)
    (_hne : oldStr ≠ []) :
    (countOccs oldStr content = 0 →
      text_editor_str_replace oldStr newStr content =
        ({ content := "", error := "No match found for replacement" }, content)) ∧
    (countOccs oldStr content > 1 →
      text_editor_str_replace oldStr newStr content =
        ({ content := "",
           error := "Found " ++ toString (countOccs oldStr content) ++
             " matches for replacement text. Please provide more specific text to make a unique match." },
         content)) ∧
    (countOccs oldStr content = 1 →
      (text_editor_str_replace oldStr newStr content).1 =
        { content := "Successfully replaced text at exactly one location.", error := "" } ∧
      ∃ pre post, content = pre ++ oldStr ++ post ∧
        (text_editor_str_replace oldStr newStr content).2 = pre ++ newStr ++ post) := by
  refine ⟨fun h => ?_, fun h => ?_, fun h => ?_⟩
  · simp [text_editor_str_replace, h]
  · have h0 : ¬countOccs oldStr content = 0 := by omega
    simp [text_editor_str_replace, h0, h]
  · have h0 : ¬countOccs oldStr content = 0 := by omega
    have h1 : ¬countOccs oldStr content > 1 := by omega
    refine ⟨by simp [text_editor_str_replace, h0, h1], ?_⟩
    rcases countOccs_one_decomp newStr oldStr content h with ⟨pre, post, hc, hg⟩
    exact ⟨pre, post, hc, by simp [text_editor_str_replace, h0, h1, hg]⟩

/-- Witness for C7 on the file contents "abc" with old_str "b" occurring
exactly once: the command reports success and the new contents are "axc". -/
theorem str_replace_match_count_spec_witness :
    (text_editor_str_replace ['b'] ['x'] ['a', 'b', 'c']).1 =
      { content := "Successfully replaced text at exactly one location.", error := "" } ∧
    ∃ pre post, (['a', 'b', 'c'] : List Char) = pre ++ ['b'] ++ post ∧
      (text_editor_str_replace ['b'] ['x'] ['a', 'b', 'c']).2 = pre ++ ['x'] ++ post :=
  (str_replace_match_count_spec ['b'] ['x'] ['a', 'b', 'c'] (by decide)).2.2
    (by simp [countOccs])

/-- C8 fails on the code at insert_line equal to the file length: inserting
"x" after line 2 of the two-line file ["a", "b"] reports success but produces
["a", "b", "x", "b"] - the R selection `lines[(L+1):length(lines)]` evaluates
`3:2` as the descending sequence c(3, 2), yielding c(NA, "b"), and after the
NA-removal pass the final line "b" appears twice.  The claim requires each
original line to appear exactly once, i.e. ["a", "b", "x"]. -/
theorem insert_at_file_end_duplicates_last_line :
    text_editor_insert ["a", "b"] 2 ["x"] =
      ({ content := "Successfully inserted text after line 2", error := "" },
       ["a", "b", "x", "b"]) ∧
    (text_editor_insert ["a", "b"] 2 ["x"]).2 ≠ ["a", "b", "x"] := by decide

/-- C9 counterexample: viewing the one-line file ["x"] with the explicit
range [2, 1] emits line 1 - the R loop `for (i in 2:1)` runs the descending
sequence c(2, 1), the guard discards i = 2 and keeps i = 1.  The claim says
the output consists of exactly the lines numbered 2 through min(1, 1), an
empty range, so nothing should be emitted. -/
theorem view_descending_range_counterexample :
    text_editor_view_lines ["x"] 2 1 = [(1, "x")] := by decide

/-- C9 amended, for an existing non-empty regular file and positive explicit
bounds: when start ≤ min(end, n) the emitted lines are exactly lines start
through min(end, n) in ascending order, each carrying its 1-based line
number; every emitted pair is a genuine line of the file (no line outside the
file is ever emitted); and when start > min(end, n) the R sequence
`start:end_line` is descending and the command emits the existing lines from
min(start, n) down to min(end, n) in descending order. -/
theorem view_range_amended_spec (lines : List String) (s e : Nat)
    (hs : 1 ≤ s) (he : 1 ≤ e) (hn : lines ≠ []) :
    (s ≤ min e lines.length →
      (text_editor_view_lines lines s e).map Prod.fst =
        List.range' s (min e lines.length + 1 - s)) ∧
    (∀ p ∈ text_editor_view_lines lines s e,
      1 ≤ p.1 ∧ p.1 ≤ lines.length ∧ lines.get? (p.1 - 1) = some p.2) ∧
    (min e lines.length < s →
      (text_editor_view_lines lines s e).map Prod.fst =
        (List.range' (min e lines.length)
          (min s lines.length + 1 - min e lines.length)).reverse) := by
  have hn1 : 1 ≤ lines.length := List.length_pos.mpr hn
  have hel : 1 ≤ min e lines.length := by omega
  have hmem : ∀ i ∈ rseqNat s (min e lines.length), 1 ≤ i := by
    intro i hi
    have := mem_rseqNat_lower s (min e lines.length) i hi
    omega
  have hview : text_editor_view_lines lines s e =
      (rseqNat s (min e lines.length)).filterMap (fun i =>
        if i ≤ lines.length then (rIndex lines i).map (fun l => (i, l)) else none) := rfl
  refine ⟨fun hcase => ?_, ?_, fun hcase => ?_⟩
  · rw [hview, mapfst_filterMap_view lines _ hmem]
    rw [show rseqNat s (min e lines.length) =
        List.range' s (min e lines.length + 1 - s) from if_pos hcase]
    rw [filter_range'_le]
    congr 1
    omega
  · intro p hp
    rw [hview] at hp
    exact mem_filterMap_view lines _ hmem p hp
  · rw [hview, mapfst_filterMap_view lines _ hmem]
    rw [show rseqNat s (min e lines.length) =
        (List.range' (min e lines.length) (s + 1 - min e lines.length)).reverse from
      if_neg (by omega)]
    rw [List.filter_reverse, filter_range'_le]
    congr 2
    omega

/-- Witness for C9 amended on the three-line file ["x", "y", "z"] with range
[2, 5]: the ascending case applies and the emitted line numbers are exactly 2
and 3. -/
theorem view_range_amended_spec_witness :
    (text_editor_view_lines ["x", "y", "z"] 2 5).map Prod.fst =
      List.range' 2 (min 5 (["x", "y", "z"] : List String).length + 1 - 2) :=
  ((view_range_amended_spec ["x", "y", "z"] 2 5 (by decide) (by decide) (by decide)).1)
    (by decide)

end Rishi
